import Mathlib

/-!
Verification of the s3newbench benchmark tool (src/main.rs) against its
natural-language specification.

The Rust source is shallowly embedded:

* `f64` quantities (latencies in milliseconds, throughputs) are modelled as
  rationals (`ℚ`); IEEE rounding is idealised away.  IEEE division is total
  but division by zero produces a non-finite value (`inf`/`NaN`); we model a
  throughput computation that produces a finite value as `some q` and the
  non-finite result of dividing by zero as `none`.
* Rust strings are modelled as `List Char` (the inputs of interest are
  ASCII); `str::trim`, `str::to_uppercase`, `str::ends_with` and
  `usize::from_str` are modelled faithfully on character lists
  (`usize::from_str` accepts an optional leading '+' followed by one or more
  decimal digits; machine-width overflow of astronomically large sizes is
  idealised away, sizes are `ℕ`).
* The effectful `run` method is modelled by explicit state passing over an
  environment `Env` that fixes the outcome of every storage / telemetry call
  (the i-th put, the i-th telemetry indexing, the i-th delete) and the
  generated object names.  Hostname lookup is assumed to succeed (it is
  config glue).  `run`'s observable behaviour is collected in a `FullTrace`:
  which calls were attempted, the final cleanup list, and the returned
  `Result`.
-/

/-! ## Measurement: throughput and latency threshold (main.rs lines 105-108, 160-166) -/

/-- Embedding of `ObjectAnalyzer::calculate_throughput` (main.rs 105-108):
`(1000.0 / latency_ms) * (size_bytes as f64) / 1_000_000.0`.
The Rust division is unguarded: for `latency_ms = 0.0` IEEE division yields a
non-finite value (`inf`, or `NaN` when `size_bytes = 0`), modelled here as
`none`; a finite result is `some` of the exact rational value. -/
def calculate_throughput (latency_ms : ℚ) (size_bytes : ℕ) : Option ℚ :=
  if latency_ms = 0 then none
  else some ((1000 / latency_ms) * (size_bytes : ℚ) / 1000000)

/-- Modelled from the spec (§4.3): the throughput computation the spec asks
for, in which a zero duration is first clamped to a minimal positive epsilon
`eps` before the division. Used only to compare the code against the spec. -/
def calculate_throughput_spec (eps latency_ms : ℚ) (size_bytes : ℕ) : ℚ :=
  let d := if latency_ms = 0 then eps else latency_ms
  (1000 / d) * (size_bytes : ℚ) / 1000000

/-- Embedding of `ObjectAnalyzer::evaluate_latency` (main.rs 160-166):
`if let Some(max) = self.args.max_latency { duration_ms > max } else { false }`. -/
def evaluate_latency (max_latency : Option ℚ) (duration_ms : ℚ) : Bool :=
  match max_latency with
  | some m => decide (duration_ms > m)
  | none => false

/-! ## Size parsing and payload generation (main.rs lines 118-135)

Rust strings are embedded as `List Char`; `str::trim` (here `trimList`) drops
whitespace from both ends, `str::to_uppercase` (here `toUpperList`) maps
`Char.toUpper` (the inputs of interest are ASCII), `str::ends_with` with the
two-character patterns `"KB"`, `"MB"`, `"GB"` is `ends_with2`, and
`usize::from_str` (here `parse_usize`) accepts an optional leading '+'
followed by one or more decimal digits. -/

/-- Embedding of `str::trim` on character lists. -/
def trimList (cs : List Char) : List Char :=
  ((cs.dropWhile Char.isWhitespace).reverse.dropWhile Char.isWhitespace).reverse

/-- Embedding of `str::to_uppercase` on character lists (ASCII). -/
def toUpperList (cs : List Char) : List Char := cs.map Char.toUpper

/-- Embedding of `str::ends_with` specialised to the two-character patterns
used at main.rs 122, 124 and 126: the list ends with the characters `a`, `b`. -/
def ends_with2 (t : List Char) (a b : Char) : Bool :=
  match t.reverse with
  | y :: x :: _ => x == a && y == b
  | _ => false

/-- Numeric value of a decimal digit string (the digits of `usize::from_str`). -/
def digitsVal (ds : List Char) : ℕ :=
  ds.foldl (fun acc c => 10 * acc + (c.toNat - 48)) 0

/-- Embedding of `str::parse::<usize>()` / `usize::from_str`: an optional
leading '+' followed by one or more decimal digits; anything else is `Err`
(`none`).  Machine-width overflow is idealised away. -/
def parse_usize (cs : List Char) : Option ℕ :=
  let ds := match cs with
    | c :: _ => if c == '+' then cs.tail else cs
    | [] => cs
  if ds.isEmpty then none
  else if ds.all Char.isDigit then some (digitsVal ds) else none

/-- Embedding of the nested `parse_size` function of
`ObjectAnalyzer::create_bin_data` (main.rs 120-131): trim, uppercase, test the
suffixes KB/MB/GB in order, parse the magnitude with `unwrap_or(0)`, multiply
by the binary unit. -/
def parse_size (size_str : List Char) : ℕ :=
  let t := toUpperList (trimList size_str)
  if ends_with2 t 'K' 'B' then
    (parse_usize (t.dropLast.dropLast)).getD 0 * 1024
  else if ends_with2 t 'M' 'B' then
    (parse_usize (t.dropLast.dropLast)).getD 0 * 1024 * 1024
  else if ends_with2 t 'G' 'B' then
    (parse_usize (t.dropLast.dropLast)).getD 0 * 1024 * 1024 * 1024
  else
    (parse_usize t).getD 0

/-- Embedding of `ObjectAnalyzer::create_bin_data` (main.rs 118-135):
`vec![b'a'; parse_size(&self.args.object_size)]`; bytes are modelled as `ℕ`
and `b'a' = 97`. -/
def create_bin_data (object_size : List Char) : List ℕ :=
  List.replicate (parse_size object_size) 97

/-- The ten decimal digit characters. -/
def digitChars : List Char := ['0', '1', '2', '3', '4', '5', '6', '7', '8', '9']

/-! ## The run state machine (main.rs lines 89-103, 137-146, 180-238)

`ObjectAnalyzer::run` is embedded by explicit state passing.  An environment
`Env` fixes the outcome of every external call: the result of `head_bucket`
and `create_bucket`, the result of the i-th `put_object` send, the i-th
telemetry indexing, the i-th `delete_object` of the cleanup loop, and the
UUID-based name generated for the i-th task.  Hostname lookup (main.rs 189)
is assumed to succeed; it is config glue.  Only the `Args` fields that steer
control flow are modelled here (`num_objects`, `workload`, `cleanup`); the
measurement fields are verified separately above.  The observable behaviour
of a run is collected in a `FullTrace`: whether `create_bucket` was invoked,
the final `cleanup_list`, how many puts / telemetry writes / deletes were
issued, and the `Result` returned by `run`. -/

/-- Object keys (modelled as character lists, like all strings here). -/
abbrev Key := List Char

/-- Outcomes of all external calls made during one run, and the generated
object names.  Errors are modelled as numeric codes. -/
structure Env where
  headBucket : Except ℕ Unit
  createBucket : Except ℕ Unit
  putResult : ℕ → Except ℕ Unit
  telemetryResult : ℕ → Except ℕ Unit
  deleteResult : ℕ → Except ℕ Unit
  objectName : ℕ → Key

/-- The control-flow-relevant command-line arguments (main.rs 34-47). -/
structure Args where
  num_objects : ℕ
  workload : List Char
  cleanup : Option (List Char)

/-- Embedding of `str::to_lowercase` on character lists (ASCII). -/
def lowerList (cs : List Char) : List Char := cs.map Char.toLower

/-- The comparison `self.args.workload.to_lowercase() == "write"`
(main.rs 183, 191). -/
def isWriteWorkload (a : Args) : Bool :=
  lowerList a.workload == ['w', 'r', 'i', 't', 'e']

/-- The test `cleanup.to_lowercase() == "yes"` on the optional cleanup
argument (main.rs 225-226). -/
def cleanupRequested (a : Args) : Bool :=
  match a.cleanup with
  | some c => lowerList c == ['y', 'e', 's']
  | none => false

/-- Whether an external call succeeded. -/
def exceptOk (r : Except ℕ Unit) : Bool :=
  match r with
  | .ok _ => true
  | .error _ => false

/-- Embedding of `ObjectAnalyzer::check_bucket_existence` (main.rs 89-95):
`head_bucket(...).send().await.is_ok()` — an error from the existence check
is mapped to `false`, i.e. treated as the bucket being absent. -/
def check_bucket_existence (env : Env) : Bool :=
  exceptOk env.headBucket

/-- Embedding of `ObjectAnalyzer::put_object` (main.rs 137-146): the send is
performed; on error the `?` propagates it and the cleanup list is untouched;
on success the key is pushed onto the cleanup list. -/
def put_object (cleanup_list : List Key) (object_name : Key)
    (send_result : Except ℕ Unit) : Except ℕ (List Key) :=
  match send_result with
  | .error e => .error e
  | .ok _ => .ok (cleanup_list ++ [object_name])

/-- Observable outcome of the write loop (main.rs 192-218): final cleanup
list, number of puts issued, number of telemetry documents written, result. -/
structure WriteTrace where
  ledger : List Key
  putsAttempted : ℕ
  docsEmitted : ℕ
  result : Except ℕ Unit

/-- Embedding of the write loop `for _ in 0..self.args.num_objects`
(main.rs 192-218): each iteration generates a name, calls `put_object` (the
`?` at main.rs 196 aborts the loop and the whole `run` on error), then writes
the telemetry document (the `?` at main.rs 217 likewise aborts on error). -/
def writeLoop (env : Env) : ℕ → ℕ → List Key → ℕ → ℕ → WriteTrace
  | 0, _, ledger, puts, docs => ⟨ledger, puts, docs, .ok ()⟩
  | fuel + 1, i, ledger, puts, docs =>
    match put_object ledger (env.objectName i) (env.putResult i) with
    | .error e => ⟨ledger, puts + 1, docs, .error e⟩
    | .ok ledger2 =>
      match env.telemetryResult i with
      | .error e => ⟨ledger2, puts + 1, docs, .error e⟩
      | .ok _ => writeLoop env fuel (i + 1) ledger2 (puts + 1) (docs + 1)

/-- Embedding of the cleanup loop `for key in &self.cleanup_list`
(main.rs 227-233): each iteration issues one delete; the `?` at main.rs 232
aborts on the first failing delete.  Returns the number of deletes issued and
the result. -/
def cleanupLoop (env : Env) : List Key → ℕ → ℕ × Except ℕ Unit
  | [], _ => (0, .ok ())
  | _ :: rest, j =>
    match env.deleteResult j with
    | .error e => (1, .error e)
    | .ok _ =>
      let r := cleanupLoop env rest (j + 1)
      (r.1 + 1, r.2)

/-- Observable outcome of a whole `run` (main.rs 180-238). -/
structure FullTrace where
  createAttempted : Bool
  ledger : List Key
  putsAttempted : ℕ
  docsEmitted : ℕ
  deletesAttempted : ℕ
  result : Except ℕ Unit

/-- The body of `run` after provisioning (main.rs 187-237): the write loop if
the workload is "write" (a read workload only prints a warning, main.rs
219-223), then — only when the loop did not abort — the cleanup loop if
requested. -/
def runMain (env : Env) (a : Args) (created : Bool) : FullTrace :=
  let t := if isWriteWorkload a then writeLoop env a.num_objects 0 [] 0 0
           else ⟨[], 0, 0, .ok ()⟩
  match t.result with
  | .error e => ⟨created, t.ledger, t.putsAttempted, t.docsEmitted, 0, .error e⟩
  | .ok _ =>
    if cleanupRequested a then
      let c := cleanupLoop env t.ledger 0
      ⟨created, t.ledger, t.putsAttempted, t.docsEmitted, c.1, c.2⟩
    else ⟨created, t.ledger, t.putsAttempted, t.docsEmitted, 0, .ok ()⟩

/-- Embedding of `ObjectAnalyzer::run` (main.rs 180-238): provisioning
(existence check, conditional `create_bucket` whose `?` at main.rs 184 makes
a creation failure fatal), then the workload and cleanup phases. -/
def run (env : Env) (a : Args) : FullTrace :=
  if check_bucket_existence env = false ∧ isWriteWorkload a = true then
    match env.createBucket with
    | .error e => ⟨true, [], 0, 0, 0, .error e⟩
    | .ok _ => runMain env a true
  else runMain env a false

/-- Environment in which the very first `put_object` send fails (error 7) and
everything else succeeds; object names are single characters A, B, ... -/
def envPutFail : Env :=
  ⟨.ok (), .ok (), fun i => if i = 0 then .error 7 else .ok (),
   fun _ => .ok (), fun _ => .ok (), fun i => [Char.ofNat (65 + i)]⟩

/-- A write run over 2 objects without cleanup. -/
def argsWrite2 : Args := ⟨2, ['w', 'r', 'i', 't', 'e'], none⟩

/-- Environment in which only the second `put_object` send fails (error 9). -/
def envPutFail2 : Env :=
  ⟨.ok (), .ok (), fun i => if i = 1 then .error 9 else .ok (),
   fun _ => .ok (), fun _ => .ok (), fun i => [Char.ofNat (65 + i)]⟩

/-- A write run over 3 objects with cleanup requested. -/
def argsWrite3 : Args := ⟨3, ['w', 'r', 'i', 't', 'e'], some ['y', 'e', 's']⟩

/-- Environment in which all puts succeed but the first cleanup delete fails
(error 3). -/
def envDelFail : Env :=
  ⟨.ok (), .ok (), fun _ => .ok (), fun _ => .ok (),
   fun j => if j = 0 then .error 3 else .ok (), fun i => [Char.ofNat (65 + i)]⟩

/-- A write run over 2 objects with cleanup requested. -/
def argsWrite2Yes : Args := ⟨2, ['w', 'r', 'i', 't', 'e'], some ['y', 'e', 's']⟩

/-- Environment in which the second cleanup delete fails (error 4). -/
def envDelFail2 : Env :=
  ⟨.ok (), .ok (), fun _ => .ok (), fun _ => .ok (),
   fun j => if j = 1 then .error 4 else .ok (), fun i => [Char.ofNat (65 + i)]⟩

/-- Environment in which the bucket-existence check itself fails (error 5)
and bucket creation fails (error 6). -/
def envHeadFail : Env :=
  ⟨.error 5, .error 6, fun _ => .ok (), fun _ => .ok (), fun _ => .ok (),
   fun _ => []⟩

/-! ## Verified claims and their witnesses -/

/-- C2: for every durationMs > 0 and every sizeBytes, the computed throughput
is finite and equals `(1000 / durationMs) * sizeBytes / 1_000_000` exactly;
equivalently it is `sizeBytes / (1000 * durationMs)` MB/s. -/
theorem calculate_throughput_formula (d : ℚ) (s : ℕ) (hd : 0 < d) :
    calculate_throughput d s = some ((1000 / d) * (s : ℚ) / 1000000) ∧
    calculate_throughput d s = some ((s : ℚ) / (1000 * d)) := by
  have hne : d ≠ 0 := ne_of_gt hd
  constructor
  · simp [calculate_throughput, hne]
  · simp only [calculate_throughput, hne, if_false]
    congr 1
    field_simp
    ring

/-- Witness for C2 at durationMs = 2 ms, sizeBytes = 1000000. -/
theorem calculate_throughput_formula_witness :
    (0 : ℚ) < 2 ∧
    calculate_throughput 2 1000000 =
      some ((1000 / 2) * ((1000000 : ℕ) : ℚ) / 1000000) :=
  ⟨by norm_num, (calculate_throughput_formula 2 1000000 (by norm_num)).1⟩

/-- C3 counterexample: at durationMs = 0 the code performs the division
unguarded and the result is the non-finite junk of IEEE division by zero
(modelled `none`), not a clamped finite throughput value. -/
theorem calculate_throughput_zero_cex :
    calculate_throughput 0 1048576 = none ∧
    calculate_throughput_spec (1 / 1000000) 0 1048576 = 1048576000 := by
  constructor
  · rfl
  · norm_num [calculate_throughput_spec]

/-- C3 amended: the throughput path contains no zero-guard: at durationMs = 0
the unguarded division is performed and yields a non-finite value (no division
error is raised, since IEEE float division is total), while for every nonzero
duration the result is finite. -/
theorem calculate_throughput_zero_unguarded :
    (∀ s : ℕ, calculate_throughput 0 s = none) ∧
    (∀ (d : ℚ) (s : ℕ), d ≠ 0 → ∃ q : ℚ, calculate_throughput d s = some q) := by
  constructor
  · intro s
    rfl
  · intro d s hd
    exact ⟨(1000 / d) * (s : ℚ) / 1000000, by simp [calculate_throughput, hd]⟩

/-- Witness for C3's amended theorem at sizeBytes = 7 and durationMs = 3. -/
theorem calculate_throughput_zero_unguarded_witness :
    calculate_throughput 0 7 = none ∧
    (3 : ℚ) ≠ 0 ∧ (∃ q : ℚ, calculate_throughput 3 7 = some q) :=
  ⟨calculate_throughput_zero_unguarded.1 7, by norm_num,
    calculate_throughput_zero_unguarded.2 3 7 (by norm_num)⟩

/-- C5: `evaluate_latency` returns `true` iff a threshold is configured and
the duration strictly exceeds it; with no threshold configured it is always
`false`. -/
theorem evaluate_latency_iff (m : Option ℚ) (d : ℚ) :
    (evaluate_latency m d = true ↔ ∃ t, m = some t ∧ t < d) ∧
    evaluate_latency none d = false := by
  refine ⟨?_, rfl⟩
  cases m with
  | none =>
      simp [evaluate_latency]
  | some t =>
      simp [evaluate_latency, gt_iff_lt]

theorem toUpper_of_mem_digitChars {c : Char} (h : c ∈ digitChars) :
    c.toUpper = c := by
  fin_cases h <;> rfl

theorem isDigit_of_mem_digitChars {c : Char} (h : c ∈ digitChars) :
    c.isDigit = true := by
  fin_cases h <;> rfl

theorem not_whitespace_of_mem_digitChars {c : Char} (h : c ∈ digitChars) :
    c.isWhitespace = false := by
  fin_cases h <;> rfl

theorem ne_plus_of_mem_digitChars {c : Char} (h : c ∈ digitChars) :
    (c == '+') = false := by
  fin_cases h <;> rfl

theorem ne_B_of_mem_digitChars {c : Char} (h : c ∈ digitChars) :
    (c == 'B') = false := by
  fin_cases h <;> rfl

theorem toUpperList_digits {ds : List Char} (h : ∀ c ∈ ds, c ∈ digitChars) :
    toUpperList ds = ds := by
  induction ds with
  | nil => rfl
  | cons c rest ih =>
      simp only [toUpperList, List.map_cons]
      rw [toUpper_of_mem_digitChars (h c (List.mem_cons_self c rest))]
      have := ih fun x hx => h x (List.mem_cons_of_mem c hx)
      simpa [toUpperList] using this

theorem parse_usize_digits {ds : List Char} (hne : ds ≠ [])
    (h : ∀ c ∈ ds, c ∈ digitChars) :
    parse_usize ds = some (digitsVal ds) := by
  cases ds with
  | nil => exact absurd rfl hne
  | cons c rest =>
      have hplus : (c == '+') = false :=
        ne_plus_of_mem_digitChars (h c (List.mem_cons_self c rest))
      have hall : (c :: rest).all Char.isDigit = true := by
        rw [List.all_eq_true]
        intro x hx
        exact isDigit_of_mem_digitChars (h x hx)
      simp [parse_usize, hplus, hall]

theorem dropLast_two_append (ds : List Char) (a b : Char) :
    (ds ++ [a, b]).dropLast.dropLast = ds := by
  have h1 : ds ++ [a, b] = (ds ++ [a]) ++ [b] := by simp
  rw [h1, List.dropLast_concat, List.dropLast_concat]

theorem ends_with2_append (ds : List Char) (a b : Char) :
    ends_with2 (ds ++ [a, b]) a b = true := by
  simp [ends_with2, List.reverse_append]

theorem ends_with2_append_false (ds : List Char) (a b x y : Char)
    (h : (a == x) = false) :
    ends_with2 (ds ++ [a, b]) x y = false := by
  simp [ends_with2, List.reverse_append, h]

theorem ends_with2_eq_false_of_last_ne {cs : List Char} (x y : Char)
    (h : ∀ c ∈ cs, (c == y) = false) : ends_with2 cs x y = false := by
  unfold ends_with2
  cases hrev : cs.reverse with
  | nil => rfl
  | cons c rest =>
      cases rest with
      | nil => rfl
      | cons c2 rest2 =>
          have hc : c ∈ cs := by
            rw [← List.mem_reverse, hrev]
            exact List.mem_cons_self c (c2 :: rest2)
          simp [h c hc]

theorem dropWhile_ws_digits {cs : List Char} (h : ∀ c ∈ cs, c ∈ digitChars) :
    cs.dropWhile Char.isWhitespace = cs := by
  cases cs with
  | nil => rfl
  | cons c rest =>
      rw [List.dropWhile_cons]
      simp [not_whitespace_of_mem_digitChars (h c (List.mem_cons_self c rest))]

theorem trimList_digits {cs : List Char} (h : ∀ c ∈ cs, c ∈ digitChars) :
    trimList cs = cs := by
  unfold trimList
  rw [dropWhile_ws_digits h]
  have hrev : ∀ c ∈ cs.reverse, c ∈ digitChars := fun c hc =>
    h c (List.mem_reverse.1 hc)
  rw [dropWhile_ws_digits hrev, List.reverse_reverse]

/-- C4 counterexample: the unrecognized suffix `"10TB"` and the non-numeric
magnitude `"xKB"` are both silently parsed as `0` bytes; no configuration
error is reported. -/
theorem parse_size_silent_zero_cex :
    parse_size ['1', '0', 'T', 'B'] = 0 ∧ parse_size ['x', 'K', 'B'] = 0 := by
  constructor <;> rfl

/-- C4 amended: `parse_size` is a total function that never reports an error:
when the magnitude in front of a recognized KB/MB/GB suffix fails to parse, or
the string has no recognized suffix and is not a decimal number, the size is
silently `0` (the `unwrap_or(0)` at main.rs 123/125/127/129). -/
theorem parse_size_invalid_yields_zero (cs : List Char) :
    (ends_with2 (toUpperList (trimList cs)) 'K' 'B' = true →
      parse_usize ((toUpperList (trimList cs)).dropLast.dropLast) = none →
      parse_size cs = 0) ∧
    (ends_with2 (toUpperList (trimList cs)) 'K' 'B' = false →
      ends_with2 (toUpperList (trimList cs)) 'M' 'B' = true →
      parse_usize ((toUpperList (trimList cs)).dropLast.dropLast) = none →
      parse_size cs = 0) ∧
    (ends_with2 (toUpperList (trimList cs)) 'K' 'B' = false →
      ends_with2 (toUpperList (trimList cs)) 'M' 'B' = false →
      ends_with2 (toUpperList (trimList cs)) 'G' 'B' = true →
      parse_usize ((toUpperList (trimList cs)).dropLast.dropLast) = none →
      parse_size cs = 0) ∧
    (ends_with2 (toUpperList (trimList cs)) 'K' 'B' = false →
      ends_with2 (toUpperList (trimList cs)) 'M' 'B' = false →
      ends_with2 (toUpperList (trimList cs)) 'G' 'B' = false →
      parse_usize (toUpperList (trimList cs)) = none →
      parse_size cs = 0) := by
  refine ⟨?_, ?_, ?_, ?_⟩
  · intro h1 h2
    simp [parse_size, h1, h2]
  · intro h1 h2 h3
    simp [parse_size, h1, h2, h3]
  · intro h1 h2 h3 h4
    simp [parse_size, h1, h2, h3, h4]
  · intro h1 h2 h3 h4
    simp [parse_size, h1, h2, h3, h4]

/-- Witness for C4's amended theorem on the input `"12QB"`. -/
theorem parse_size_invalid_yields_zero_witness :
    ends_with2 (toUpperList (trimList ['1', '2', 'Q', 'B'])) 'K' 'B' = false ∧
    ends_with2 (toUpperList (trimList ['1', '2', 'Q', 'B'])) 'M' 'B' = false ∧
    ends_with2 (toUpperList (trimList ['1', '2', 'Q', 'B'])) 'G' 'B' = false ∧
    parse_usize (toUpperList (trimList ['1', '2', 'Q', 'B'])) = none ∧
    parse_size ['1', '2', 'Q', 'B'] = 0 :=
  ⟨rfl, rfl, rfl, rfl,
    (parse_size_invalid_yields_zero ['1', '2', 'Q', 'B']).2.2.2 rfl rfl rfl rfl⟩

/-- C8: after trimming, a decimal magnitude followed by a KB, MB or GB suffix
in any letter case parses to the magnitude times 1024, 1024^2 or 1024^3
respectively, and the generated payload is a buffer of exactly that many
`b'a'` bytes. -/
theorem parse_size_suffix_correct (cs ds suf : List Char)
    (ht : trimList cs = ds ++ suf)
    (hne : ds ≠ [])
    (hd : ∀ c ∈ ds, c ∈ digitChars) :
    (toUpperList suf = ['K', 'B'] →
      create_bin_data cs = List.replicate (digitsVal ds * 1024) 97) ∧
    (toUpperList suf = ['M', 'B'] →
      create_bin_data cs = List.replicate (digitsVal ds * 1024 * 1024) 97) ∧
    (toUpperList suf = ['G', 'B'] →
      create_bin_data cs = List.replicate (digitsVal ds * 1024 * 1024 * 1024) 97) := by
  have hup : toUpperList (trimList cs) = ds ++ toUpperList suf := by
    rw [ht]
    simp only [toUpperList, List.map_append]
    rw [show List.map Char.toUpper ds = toUpperList ds from rfl, toUpperList_digits hd]
  have hparse : parse_usize ds = some (digitsVal ds) := parse_usize_digits hne hd
  refine ⟨?_, ?_, ?_⟩ <;> intro hs
  · have h1 : toUpperList (trimList cs) = ds ++ ['K', 'B'] := by rw [hup, hs]
    simp [create_bin_data, parse_size, h1, ends_with2_append, dropLast_two_append,
      hparse]
  · have h1 : toUpperList (trimList cs) = ds ++ ['M', 'B'] := by rw [hup, hs]
    simp [create_bin_data, parse_size, h1, ends_with2_append, dropLast_two_append,
      ends_with2_append_false ds 'M' 'B' 'K' 'B' rfl, hparse]
  · have h1 : toUpperList (trimList cs) = ds ++ ['G', 'B'] := by rw [hup, hs]
    simp [create_bin_data, parse_size, h1, ends_with2_append, dropLast_two_append,
      ends_with2_append_false ds 'G' 'B' 'K' 'B' rfl,
      ends_with2_append_false ds 'G' 'B' 'M' 'B' rfl, hparse]

/-- Witness for C8 on the input `" 10kB "`: 10240 bytes. -/
theorem parse_size_suffix_correct_witness :
    trimList [' ', '1', '0', 'k', 'B', ' '] = ['1', '0'] ++ ['k', 'B'] ∧
    (['1', '0'] : List Char) ≠ [] ∧
    toUpperList ['k', 'B'] = ['K', 'B'] ∧
    create_bin_data [' ', '1', '0', 'k', 'B', ' '] =
      List.replicate (digitsVal ['1', '0'] * 1024) 97 :=
  ⟨rfl, by decide, rfl,
    (parse_size_suffix_correct [' ', '1', '0', 'k', 'B', ' '] ['1', '0'] ['k', 'B']
      rfl (by decide) (by decide)).1 rfl⟩

/-- C10: a size string consisting only of decimal digits has no recognized
suffix and is interpreted as a raw byte count; the generated payload is a
buffer of exactly that many bytes, each byte the ASCII character a (97). -/
theorem create_bin_data_raw_bytes (cs : List Char) (hne : cs ≠ [])
    (hd : ∀ c ∈ cs, c ∈ digitChars) :
    create_bin_data cs = List.replicate (digitsVal cs) 97 ∧
    (create_bin_data cs).length = digitsVal cs ∧
    (∀ b ∈ create_bin_data cs, b = 97) := by
  have htrim : trimList cs = cs := trimList_digits hd
  have hup : toUpperList cs = cs := toUpperList_digits hd
  have hB : ∀ x, ends_with2 cs x 'B' = false := fun x =>
    ends_with2_eq_false_of_last_ne x 'B' fun c hc => ne_B_of_mem_digitChars (hd c hc)
  have hp : parse_usize cs = some (digitsVal cs) := parse_usize_digits hne hd
  have hps : parse_size cs = digitsVal cs := by
    simp [parse_size, htrim, hup, hB, hp]
  refine ⟨by simp [create_bin_data, hps], by simp [create_bin_data, hps], ?_⟩
  intro b hb
  exact List.eq_of_mem_replicate (by simpa [create_bin_data, hps] using hb)

/-- Witness for C10 on the input `"007"`: 7 bytes of 97. -/
theorem create_bin_data_raw_bytes_witness :
    (['0', '0', '7'] : List Char) ≠ [] ∧
    (∀ c ∈ (['0', '0', '7'] : List Char), c ∈ digitChars) ∧
    create_bin_data ['0', '0', '7'] = List.replicate (digitsVal ['0', '0', '7']) 97 :=
  ⟨by decide, by decide,
    (create_bin_data_raw_bytes ['0', '0', '7'] (by decide) (by decide)).1⟩

theorem writeLoop_abort (env : Env) (e : ℕ) :
    ∀ (k fuel i : ℕ) (L : List Key) (p d : ℕ), k < fuel →
      (∀ j < k, env.putResult (i + j) = .ok () ∧ env.telemetryResult (i + j) = .ok ()) →
      env.putResult (i + k) = .error e →
      writeLoop env fuel i L p d =
        ⟨L ++ (List.range' i k).map env.objectName, p + k + 1, d + k, .error e⟩ := by
  intro k
  induction k with
  | zero =>
      intro fuel i L p d hk hpre hfail
      cases fuel with
      | zero => omega
      | succ fuel =>
          rw [Nat.add_zero] at hfail
          simp [writeLoop, put_object, hfail]
  | succ k ih =>
      intro fuel i L p d hk hpre hfail
      cases fuel with
      | zero => omega
      | succ fuel =>
          have h0 := hpre 0 (Nat.succ_pos k)
          rw [Nat.add_zero] at h0
          have hk' : k < fuel := by omega
          have hpre' : ∀ j < k,
              env.putResult (i + 1 + j) = .ok () ∧
              env.telemetryResult (i + 1 + j) = .ok () := by
            intro j hj
            have hx := hpre (j + 1) (by omega)
            rwa [show i + (j + 1) = i + 1 + j by omega] at hx
          have hfail' : env.putResult (i + 1 + k) = .error e := by
            rwa [show i + (k + 1) = i + 1 + k by omega] at hfail
          simp only [writeLoop, put_object, h0.1, h0.2]
          rw [ih fuel (i + 1) (L ++ [env.objectName i]) (p + 1) (d + 1) hk' hpre' hfail']
          simp only [WriteTrace.mk.injEq]
          refine ⟨?_, by omega, by omega, trivial⟩
          rw [List.range'_succ]
          simp

theorem writeLoop_ledger (env : Env) :
    ∀ (fuel i : ℕ) (L : List Key) (p d : ℕ),
      ∃ k, (writeLoop env fuel i L p d).putsAttempted = p + k ∧
        (writeLoop env fuel i L p d).ledger =
          L ++ ((List.range' i k).filter fun j =>
            exceptOk (env.putResult j)).map env.objectName := by
  intro fuel
  induction fuel with
  | zero =>
      intro i L p d
      exact ⟨0, rfl, by simp [writeLoop]⟩
  | succ fuel ih =>
      intro i L p d
      cases hput : env.putResult i with
      | error e =>
          refine ⟨1, ?_, ?_⟩
          · simp [writeLoop, put_object, hput]
          · simp [writeLoop, put_object, hput, exceptOk, List.range'_succ]
      | ok u =>
          cases htel : env.telemetryResult i with
          | error e =>
              refine ⟨1, ?_, ?_⟩
              · simp [writeLoop, put_object, hput, htel]
              · simp [writeLoop, put_object, hput, htel, exceptOk, List.range'_succ]
          | ok v =>
              obtain ⟨k, hp, hl⟩ := ih (i + 1) (L ++ [env.objectName i]) (p + 1) (d + 1)
              refine ⟨k + 1, ?_, ?_⟩
              · simp only [writeLoop, put_object, hput, htel]
                rw [hp]
                omega
              · simp only [writeLoop, put_object, hput, htel]
                rw [hl, List.range'_succ, List.filter_cons]
                simp [exceptOk, hput]

theorem cleanupLoop_abort (env : Env) :
    ∀ (keys : List Key) (i m e : ℕ), m < keys.length →
      (∀ j < m, env.deleteResult (i + j) = .ok ()) →
      env.deleteResult (i + m) = .error e →
      cleanupLoop env keys i = (m + 1, .error e) := by
  intro keys
  induction keys with
  | nil =>
      intro i m e hm
      simp at hm
  | cons key rest ih =>
      intro i m e hm hpre hfail
      cases m with
      | zero =>
          rw [Nat.add_zero] at hfail
          simp [cleanupLoop, hfail]
      | succ m =>
          have h0 : env.deleteResult i = .ok () := by
            have hx := hpre 0 (Nat.succ_pos m)
            rwa [Nat.add_zero] at hx
          have hm' : m < rest.length := by
            simp at hm
            omega
          have hpre' : ∀ j < m, env.deleteResult (i + 1 + j) = .ok () := by
            intro j hj
            have hx := hpre (j + 1) (by omega)
            rwa [show i + (j + 1) = i + 1 + j by omega] at hx
          have hfail' : env.deleteResult (i + 1 + m) = .error e := by
            rwa [show i + (m + 1) = i + 1 + m by omega] at hfail
          simp only [cleanupLoop, h0]
          rw [ih (i + 1) m e hm' hpre' hfail']

theorem runMain_fields (env : Env) (a : Args) (c : Bool) (t : WriteTrace)
    (ht : (if isWriteWorkload a then writeLoop env a.num_objects 0 [] 0 0
           else ⟨[], 0, 0, .ok ()⟩) = t) :
    (runMain env a c).createAttempted = c ∧
    (runMain env a c).ledger = t.ledger ∧
    (runMain env a c).putsAttempted = t.putsAttempted ∧
    (runMain env a c).docsEmitted = t.docsEmitted := by
  unfold runMain
  rw [ht]
  rcases t with ⟨L, p, d, r⟩
  cases r with
  | error e => simp
  | ok u =>
      by_cases hc : cleanupRequested a = true <;> simp [hc]

/-- C1 counterexample: with 2 tasks and the first `put_object` failing, `run`
issues only 1 of the 2 puts, emits no telemetry document for the failed
operation, and returns the error: the run aborts instead of continuing with
the next task. -/
theorem run_aborts_on_first_put_failure_cex :
    argsWrite2.num_objects = 2 ∧
    (run envPutFail argsWrite2).putsAttempted = 1 ∧
    (run envPutFail argsWrite2).docsEmitted = 0 ∧
    (run envPutFail argsWrite2).result = Except.error 7 :=
  ⟨rfl, rfl, rfl, rfl⟩

/-- C1 amended: in a write workload run, the failure of a single `put_object`
aborts the run: the error of the `?` at main.rs 196 propagates out of `run`,
no measurement is recorded for the failed operation, the remaining tasks are
never attempted, and the cleanup phase is skipped. -/
theorem run_aborts_on_put_failure (env : Env) (a : Args) (k e : ℕ)
    (hw : isWriteWorkload a = true)
    (hb : check_bucket_existence env = true)
    (hk : k < a.num_objects)
    (hpre : ∀ j < k, env.putResult j = .ok () ∧ env.telemetryResult j = .ok ())
    (hfail : env.putResult k = .error e) :
    run env a = ⟨false, (List.range k).map env.objectName, k + 1, k, 0, .error e⟩ := by
  have hcond : ¬(check_bucket_existence env = false ∧ isWriteWorkload a = true) := by
    simp [hb]
  have habort := writeLoop_abort env e k a.num_objects 0 [] 0 0 hk
    (by simpa using hpre) (by simpa using hfail)
  unfold run
  rw [if_neg hcond]
  unfold runMain
  rw [if_pos hw, habort]
  simp [List.range_eq_range']

/-- Witness for C1's amended theorem: second of three puts fails; the third
put and the requested cleanup never happen. -/
theorem run_aborts_on_put_failure_witness :
    isWriteWorkload argsWrite3 = true ∧
    check_bucket_existence envPutFail2 = true ∧
    1 < argsWrite3.num_objects ∧
    envPutFail2.putResult 1 = Except.error 9 ∧
    run envPutFail2 argsWrite3 =
      ⟨false, (List.range 1).map envPutFail2.objectName, 2, 1, 0, .error 9⟩ :=
  ⟨rfl, rfl, by decide, rfl,
    run_aborts_on_put_failure envPutFail2 argsWrite3 1 9 rfl rfl (by decide)
      (fun j hj => by
        have hj0 : j = 0 := by omega
        subst hj0
        exact ⟨rfl, rfl⟩) rfl⟩

/-- C6: after any write run (over an existing bucket), the cleanup ledger is
exactly the list of names of the successful puts, in order: a key is appended
iff the corresponding `put_object` send succeeded, so the ledger length is
the number of successful writes, not the number of attempted writes. -/
theorem ledger_tracks_successful_puts (env : Env) (a : Args)
    (hw : isWriteWorkload a = true)
    (hb : check_bucket_existence env = true) :
    (run env a).ledger =
      ((List.range (run env a).putsAttempted).filter fun j =>
        exceptOk (env.putResult j)).map env.objectName ∧
    (run env a).ledger.length =
      ((List.range (run env a).putsAttempted).filter fun j =>
        exceptOk (env.putResult j)).length := by
  have hcond : ¬(check_bucket_existence env = false ∧ isWriteWorkload a = true) := by
    simp [hb]
  have hrm : run env a = runMain env a false := by
    unfold run
    rw [if_neg hcond]
  obtain ⟨hca, hl, hp, hd⟩ := runMain_fields env a false
    (writeLoop env a.num_objects 0 [] 0 0) (by rw [if_pos hw])
  obtain ⟨k, hpk, hlk⟩ := writeLoop_ledger env a.num_objects 0 [] 0 0
  have h1 : (run env a).putsAttempted = k := by
    rw [hrm, hp, hpk, Nat.zero_add]
  have hmain : (run env a).ledger =
      ((List.range (run env a).putsAttempted).filter fun j =>
        exceptOk (env.putResult j)).map env.objectName := by
    rw [h1, List.range_eq_range', hrm, hl, hlk, List.nil_append]
  exact ⟨hmain, by rw [hmain, List.length_map]⟩

/-- Witness for C6: first put fails, so the ledger stays empty while one put
was attempted. -/
theorem ledger_tracks_successful_puts_witness :
    isWriteWorkload argsWrite2 = true ∧
    check_bucket_existence envPutFail = true ∧
    (run envPutFail argsWrite2).ledger =
      ((List.range (run envPutFail argsWrite2).putsAttempted).filter fun j =>
        exceptOk (envPutFail.putResult j)).map envPutFail.objectName :=
  ⟨rfl, rfl, (ledger_tracks_successful_puts envPutFail argsWrite2 rfl rfl).1⟩

/-- C7 counterexample: after 2 successful writes the ledger holds 2 keys, the
first delete of the cleanup phase fails, and `run` issues only that one
delete and returns the error: the remaining key is never attempted and no
failure report is collected. -/
theorem cleanup_aborts_on_delete_failure_cex :
    (run envDelFail argsWrite2Yes).ledger.length = 2 ∧
    (run envDelFail argsWrite2Yes).deletesAttempted = 1 ∧
    (run envDelFail argsWrite2Yes).result = Except.error 3 :=
  ⟨rfl, rfl, rfl⟩

/-- C7 amended: during cleanup, the first failing `delete_object` aborts the
loop through the `?` at main.rs 232: exactly the deletes up to and including
the failing one are issued, the error propagates, and the remaining ledger
keys are not attempted. -/
theorem cleanup_delete_failure_aborts (env : Env) (keys : List Key) (m e : ℕ)
    (hm : m < keys.length)
    (hpre : ∀ j < m, env.deleteResult j = .ok ())
    (hfail : env.deleteResult m = .error e) :
    cleanupLoop env keys 0 = (m + 1, .error e) :=
  cleanupLoop_abort env keys 0 m e hm (by simpa using hpre) (by simpa using hfail)

/-- Witness for C7's amended theorem: of a 3-key ledger only 2 deletes are
issued when the second one fails. -/
theorem cleanup_delete_failure_aborts_witness :
    1 < ([['a'], ['b'], ['c']] : List Key).length ∧
    envDelFail2.deleteResult 1 = Except.error 4 ∧
    cleanupLoop envDelFail2 [['a'], ['b'], ['c']] 0 = (2, .error 4) :=
  ⟨by decide, rfl,
    cleanup_delete_failure_aborts envDelFail2 [['a'], ['b'], ['c']] 1 4 (by decide)
      (fun j hj => by
        have hj0 : j = 0 := by omega
        subst hj0
        exact rfl) rfl⟩

/-- C9: provisioning behaviour of `run`: (i) a failing bucket-existence check
is reported as the bucket being absent (non-fatal); (ii) `create_bucket` is
invoked iff the check reported absent and the workload is Write; (iii) a
failing `create_bucket` aborts the run before any put or delete. -/
theorem provisioning_behavior :
    (∀ (env : Env) (e : ℕ), env.headBucket = .error e →
      check_bucket_existence env = false) ∧
    (∀ (env : Env) (a : Args),
      (run env a).createAttempted = true ↔
        (check_bucket_existence env = false ∧ isWriteWorkload a = true)) ∧
    (∀ (env : Env) (a : Args) (e : ℕ),
      check_bucket_existence env = false → isWriteWorkload a = true →
      env.createBucket = .error e →
      run env a = ⟨true, [], 0, 0, 0, .error e⟩) := by
  refine ⟨?_, ?_, ?_⟩
  · intro env e h
    simp [check_bucket_existence, h, exceptOk]
  · intro env a
    by_cases hcond : check_bucket_existence env = false ∧ isWriteWorkload a = true
    · rw [run, if_pos hcond]
      cases hcb : env.createBucket with
      | error e => simpa using hcond
      | ok u =>
          have := (runMain_fields env a true
            (if isWriteWorkload a then writeLoop env a.num_objects 0 [] 0 0
             else ⟨[], 0, 0, .ok ()⟩) rfl).1
          rw [this]
          simpa using hcond
    · rw [run, if_neg hcond]
      have := (runMain_fields env a false
        (if isWriteWorkload a then writeLoop env a.num_objects 0 [] 0 0
         else ⟨[], 0, 0, .ok ()⟩) rfl).1
      rw [this]
      simp [hcond]
  · intro env a e h1 h2 hcb
    rw [run, if_pos ⟨h1, h2⟩, hcb]

/-- Witness for C9: a failing existence check is treated as absence, creation
is attempted for the write workload, and its failure aborts the run. -/
theorem provisioning_behavior_witness :
    check_bucket_existence envHeadFail = false ∧
    isWriteWorkload argsWrite2 = true ∧
    envHeadFail.createBucket = Except.error 6 ∧
    run envHeadFail argsWrite2 = ⟨true, [], 0, 0, 0, .error 6⟩ :=
  ⟨rfl, rfl, rfl,
    provisioning_behavior.2.2 envHeadFail argsWrite2 6 rfl rfl rfl⟩
